import Mathlib

/-!
Verification development for the faceted search / filter-synchronization
engine of the recipe listing page (src/static/js/recipes.js).

The embedding is shallow: each DOM event handler of the source becomes a
Lean function on an explicit state record, and the asynchronous
fetch-based search is modelled as a labelled transition system whose
atomic steps are the synchronous chunks between the `await` suspension
points of `requestSearch`.
-/

namespace Recipes

/-- Worker for `jsDedup`, carrying the values already emitted. -/
def jsDedupGo (seen : List String) : List String → List String
  | [] => []
  | x :: xs => if x ∈ seen then jsDedupGo seen xs else x :: jsDedupGo (seen ++ [x]) xs

/-- First-occurrence deduplication, the membership semantics of a JS `Set`
built by repeated `add`. -/
def jsDedup (l : List String) : List String :=
  jsDedupGo [] l

/-- `String.prototype.trim` of JS: drop whitespace from both ends.
Written over the character list so that it is structurally recursive. -/
def jsTrim (s : String) : String :=
  String.mk (((s.data.dropWhile Char.isWhitespace).reverse.dropWhile Char.isWhitespace).reverse)

/-- `getCurrentTags` of the source: read every `tags` value of the current
address's query parameters into a set. -/
def getCurrentTags (addr : List (String × String)) : List String :=
  jsDedup ((addr.filter (fun p => p.1 = "tags")).map (fun p => p.2))

/-- JS `Set.delete`: remove the element, keeping the order of the rest. -/
def setDelete (l : List String) (v : String) : List String :=
  l.filter (fun x => x ≠ v)

/-- JS `Set.add`: append the element at the end if it is not a member. -/
def setAdd (l : List String) (v : String) : List String :=
  if v ∈ l then l else l ++ [v]

/-- The body of the quick-filter button click listener: membership test on
the current tag set, then `delete` or `add` (`recipes.js` lines 99-110). -/
def toggleTag (l : List String) (v : String) : List String :=
  if v ∈ l then setDelete l v else setAdd l v

/-- `buildSearchParams` + the optional `q`: the serialized query of
`requestSearch` — every tag appended as a repeated `tags` parameter, then
`q` set to the trimmed input when that is non-empty. -/
def searchParams (tags : List String) (input : String) : List (String × String) :=
  let base := tags.map (fun t => (("tags", t) : String × String))
  if jsTrim input = "" then base else base ++ [("q", jsTrim input)]

/-- `applySelection` of the source: rebuild the target query from the
current address — delete every `tags` entry, keep everything else
verbatim, then append the selected tags — and navigate to it. -/
def applySelection (addr : List (String × String)) (tags : List String) :
    List (String × String) :=
  addr.filter (fun p => p.1 ≠ "tags") ++ tags.map (fun t => (("tags", t) : String × String))

/-- One extra-tag checkbox of the panel: its `value` attribute and its
live `checked` state. -/
structure Checkbox where
  value : String
  checked : Bool
deriving DecidableEq

/-- The page state the tag/navigation handlers act on: the dropdown's
open flag and `aria-expanded` attribute, the live checkboxes, the current
address's query parameters, the live text-input value, and the list of
full navigations performed so far (each `window.location.href` assignment
appends its target). -/
structure PanelState where
  isOpen : Bool
  ariaExpanded : Bool
  boxes : List Checkbox
  addr : List (String × String)
  inputVal : String
  navs : List (List (String × String))
deriving DecidableEq

/-- `closeExtraDropdown`: remove the `is-open` class and set
`aria-expanded` to false.  It touches nothing else. -/
def closeExtraDropdown (st : PanelState) : PanelState :=
  { st with isOpen := false, ariaExpanded := false }

/-- A `window.location.href` assignment: one full navigation to the
given query. -/
def navigate (st : PanelState) (target : List (String × String)) : PanelState :=
  { st with navs := st.navs ++ [target] }

/-- Quick-filter button click listener: toggle the tag in the current
set and navigate to the rebuilt query. -/
def filterButtonClick (value : String) (st : PanelState) : PanelState :=
  navigate st (applySelection st.addr (toggleTag (getCurrentTags st.addr) value))

/-- Reset-all click listener: current params with every `tags` entry
deleted, then navigate. -/
def resetClick (st : PanelState) : PanelState :=
  navigate st (st.addr.filter (fun p => p.1 ≠ "tags"))

/-- `applyExtraTags`: start from the current tag set, delete every
configured extra-tag value, then add the value of each checked checkbox —
the source guards with `checkbox.checked && value`, so an empty value is
never added. -/
def applyExtraTags (current : List String) (extraVals : List String)
    (boxes : List Checkbox) : List String :=
  let afterErase := extraVals.foldl (fun acc v => setDelete acc v) current
  boxes.foldl
    (fun acc cb => if cb.checked = true ∧ cb.value ≠ "" then setAdd acc cb.value else acc)
    afterErase

/-- Extra-tags apply button click listener: close the dropdown, then
commit via `applyExtraTags` and `applySelection`. -/
def extraApplyClick (extraVals : List String) (st : PanelState) : PanelState :=
  let st1 := closeExtraDropdown st
  navigate st1 (applySelection st1.addr (applyExtraTags (getCurrentTags st1.addr) extraVals st1.boxes))

/-- Extra-tags clear button click listener: uncheck every checkbox first,
then close and commit exactly as the apply button does. -/
def extraClearClick (extraVals : List String) (st : PanelState) : PanelState :=
  let st1 := { st with boxes := st.boxes.map (fun cb => { cb with checked := false }) }
  extraApplyClick extraVals st1

/-- Document-level click listener: if the click target is inside the
dropdown, do nothing; otherwise close the dropdown. -/
def documentClick (targetInsideDropdown : Bool) (st : PanelState) : PanelState :=
  if targetInsideDropdown then st else closeExtraDropdown st

/-- Document-level keydown listener: close the dropdown on `Escape`,
ignore every other key. -/
def documentKeydown (key : String) (st : PanelState) : PanelState :=
  if key = "Escape" then closeExtraDropdown st else st

/-- Tags of a filter set regarded as a finite set of identifiers:
membership is the only semantics the spec gives a `Filter Set`. -/
def tagFinset (l : List String) : Finset String := l.toFinset

/-- The fixed debounce delay of `debouncedSearch` (250 time units). -/
def delay : Nat := 250

/-- A user interaction handled by the search wiring. -/
inductive UAct where
  | input (v : String)
  | submit
  | clearClick
deriving DecidableEq

/-- A timestamped user interaction. -/
structure TEvent where
  t : Nat
  act : UAct
deriving DecidableEq

/-- State of the search wiring between events. -/
structure SimState where
  inputVal : String
  pending : Option Nat
  dispatches : List (Nat × String)
  addr : List (String × String)
  navs : Nat
deriving DecidableEq

/-- One invocation of `requestSearch` at the given time: rewrite the
address to the serialized search parameters (`updateHistory`, by replace)
and record the dispatched query — the trimmed live input value. -/
def doDispatch (time : Nat) (s : SimState) : SimState :=
  { s with
      addr := searchParams (getCurrentTags s.addr) s.inputVal,
      dispatches := s.dispatches ++ [(time, jsTrim s.inputVal)] }

/-- Fire the debounce timer first when its deadline is not after the next
event's time: the timer's callback macrotask runs at its deadline, before
any later user event. -/
def flushBefore (t : Nat) (s : SimState) : SimState :=
  match s.pending with
  | some d => if d ≤ t then { doDispatch d s with pending := none } else s
  | none => s

/-- The three event listeners of the source.  `input` stores the new text
and calls `debouncedSearch` (reset `pending` to now + `delay`); `submit`
trims the field and calls `requestSearch` directly, leaving `pending`
untouched; the clear-search click rewrites the address to the tags-only
query, empties the field and calls `debouncedSearch`. -/
def handle (s : SimState) (e : TEvent) : SimState :=
  let s1 := flushBefore e.t s
  match e.act with
  | UAct.input v => { s1 with inputVal := v, pending := some (e.t + delay) }
  | UAct.submit => doDispatch e.t { s1 with inputVal := jsTrim s1.inputVal }
  | UAct.clearClick =>
      { s1 with
          addr := searchParams (getCurrentTags s1.addr) "",
          inputVal := "",
          pending := some (e.t + delay) }

/-- After the last user event, a still-pending timer eventually fires at
its deadline. -/
def finalFlush (s : SimState) : SimState :=
  match s.pending with
  | some d => { doDispatch d s with pending := none }
  | none => s

/-- Initial state of a page session: given starting address and text. -/
def initSim (addr0 : List (String × String)) (input0 : String) : SimState :=
  { inputVal := input0, pending := none, dispatches := [], addr := addr0, navs := 0 }

/-- Run a timestamped interaction script from the initial state, firing
due timers in order, and let a final pending timer elapse. -/
def runScript (addr0 : List (String × String)) (input0 : String)
    (es : List TEvent) : SimState :=
  finalFlush (es.foldl handle (initSim addr0 input0))

/-- Whether an interaction is a text-input event. -/
def isInput : UAct → Bool
  | UAct.input _ => true
  | _ => false

/-- A burst relative to a previous event at `t0`: times are nondecreasing
and each event arrives strictly before the previous event's debounce
deadline elapses. -/
def burstTimes : Nat → List TEvent → Bool
  | _, [] => true
  | t0, e :: es => (decide (t0 ≤ e.t) && decide (e.t < t0 + delay)) && burstTimes e.t es

/-- The time of the last event of a burst (default: the opening event's). -/
def lastTime (t0 : Nat) (es : List TEvent) : Nat :=
  es.foldl (fun _ e => e.t) t0

/-- The text value carried by the last input event of a burst (default:
the opening event's value). -/
def lastVal (v : String) (es : List TEvent) : String :=
  es.foldl (fun acc e => match e.act with | UAct.input w => w | _ => acc) v

/-- A settled `fetch` response: its `ok` flag and, after `json()`
parsing, the optional `html` field of the body. -/
structure FetchResp where
  ok : Bool
  html : Option String
deriving DecidableEq

/-- Where a dispatched request currently is: suspended at `await fetch`,
suspended at `await response.json()`, or settled. -/
inductive ReqStage where
  | pendingFetch
  | pendingJson (resp : FetchResp)
  | done
deriving DecidableEq

/-- Global state of the page session: the address's query parameters, one
stage per dispatched request (the request's number is its index), the
owner of the live (never-aborted) controller, the aborted requests, the
results container (`none` = never overwritten since page load) and the
number of `console.error` diagnostics. -/
structure SState where
  address : List (String × String)
  stages : List ReqStage
  current : Option Nat
  aborted : List Nat
  container : Option String
  errLog : Nat
deriving DecidableEq

/-- The stage of request `i`. -/
def stageOf (st : SState) (i : Nat) : Option ReqStage :=
  st.stages[i]?

/-- Replace request `i`'s stage. -/
def setStage (st : SState) (i : Nat) (v : ReqStage) : SState :=
  { st with stages := st.stages.set i v }

/-- `searchController?.abort()`: mark the owner of the live controller,
if any, as aborted. -/
def abortCurrent (st : SState) : SState :=
  match st.current with
  | some c => { st with aborted := c :: st.aborted }
  | none => st

/-- The synchronous prefix of `requestSearch` (assuming `searchUrl` is
configured): build the parameters from the current address's tags and the
live input, rewrite the address (`updateHistory`), abort the previous
controller, install a fresh one owned by the new request, and start the
fetch. -/
def dispatchResult (st : SState) (input : String) : SState :=
  let st1 := abortCurrent st
  { st1 with
      address := searchParams (getCurrentTags st.address) input,
      current := some st.stages.length,
      stages := st.stages ++ [ReqStage.pendingFetch] }

/-- A page session that has dispatched nothing yet. -/
def mkInit (addr : List (String × String)) : SState :=
  { address := addr, stages := [], current := none, aborted := [],
    container := none, errLog := 0 }

/-- The observable events of the machine: a new dispatch with the live
input text, or one request's pending `await` settling in one of the
possible ways. -/
inductive SEvent where
  | dispatch (input : String)
  | fetchAbort (i : Nat)
  | fetchFail (i : Nat)
  | fetchResolve (i : Nat) (resp : FetchResp)
  | jsonAbort (i : Nat)
  | jsonFail (i : Nat)
  | jsonResolve (i : Nat)
deriving DecidableEq

/-- One atomic step of the event loop.  `fetchAbort`/`jsonAbort` are the
`AbortError` rejections of an aborted request — caught and swallowed by
the `catch` arm.  `fetchFail`/`jsonFail` are other transport or parse
errors — caught and reported via `console.error`.  `fetchResolve` runs
the continuation up to the `response.ok` check: a non-ok response returns
silently, an ok one proceeds to `await response.json()`.  `jsonResolve`
runs the final continuation, writing `data.html || ""` into the results
container.  When `ae` is true, a settled delivery (`fetchFail`,
`fetchResolve`, `jsonFail`, `jsonResolve`) requires the request not to
have been aborted — the abort signal dooms its pending promise. -/
inductive SStep (ae : Bool) : SState → SEvent → SState → Prop where
  | dispatch (st : SState) (input : String) (st' : SState)
      (heq : st' = dispatchResult st input) :
      SStep ae st (SEvent.dispatch input) st'
  | fetchAbort (st : SState) (i : Nat) (st' : SState)
      (hstage : stageOf st i = some ReqStage.pendingFetch)
      (hab : i ∈ st.aborted)
      (heq : st' = setStage st i ReqStage.done) :
      SStep ae st (SEvent.fetchAbort i) st'
  | fetchFail (st : SState) (i : Nat) (st' : SState)
      (hstage : stageOf st i = some ReqStage.pendingFetch)
      (hok : ae = true → i ∉ st.aborted)
      (heq : st' = { setStage st i ReqStage.done with errLog := st.errLog + 1 }) :
      SStep ae st (SEvent.fetchFail i) st'
  | fetchResolve (st : SState) (i : Nat) (resp : FetchResp) (st' : SState)
      (hstage : stageOf st i = some ReqStage.pendingFetch)
      (hok : ae = true → i ∉ st.aborted)
      (heq : st' = if resp.ok then setStage st i (ReqStage.pendingJson resp)
                   else setStage st i ReqStage.done) :
      SStep ae st (SEvent.fetchResolve i resp) st'
  | jsonAbort (st : SState) (i : Nat) (resp : FetchResp) (st' : SState)
      (hstage : stageOf st i = some (ReqStage.pendingJson resp))
      (hab : i ∈ st.aborted)
      (heq : st' = setStage st i ReqStage.done) :
      SStep ae st (SEvent.jsonAbort i) st'
  | jsonFail (st : SState) (i : Nat) (resp : FetchResp) (st' : SState)
      (hstage : stageOf st i = some (ReqStage.pendingJson resp))
      (hok : ae = true → i ∉ st.aborted)
      (heq : st' = { setStage st i ReqStage.done with errLog := st.errLog + 1 }) :
      SStep ae st (SEvent.jsonFail i) st'
  | jsonResolve (st : SState) (i : Nat) (resp : FetchResp) (st' : SState)
      (hstage : stageOf st i = some (ReqStage.pendingJson resp))
      (hok : ae = true → i ∉ st.aborted)
      (heq : st' = { setStage st i ReqStage.done with
          container := some (resp.html.getD "") }) :
      SStep ae st (SEvent.jsonResolve i) st'

/-- Multi-step reachability along a trace of events. -/
inductive Reaches (ae : Bool) : SState → List SEvent → SState → Prop where
  | refl (st : SState) : Reaches ae st [] st
  | step {st st1 st2 : SState} {e : SEvent} {tr : List SEvent}
      (h1 : SStep ae st e st1) (h2 : Reaches ae st1 tr st2) :
      Reaches ae st (e :: tr) st2

/-- Structural invariant of every reachable session state: exactly the
non-latest dispatched requests are aborted, and the live controller is
owned by the latest dispatch. -/
def Inv (st : SState) : Prop :=
  (∀ i : Nat, i ∈ st.aborted ↔ i + 1 < st.stages.length) ∧
  st.current = (if st.stages.length = 0 then none else some (st.stages.length - 1))

/-- Dispatching "a" from a fresh session: request 0 is in flight. -/
def wB : SState := dispatchResult (mkInit []) "a"

/-- A successful response carrying fresh markup. -/
def rOK : FetchResp := { ok := true, html := some "fresh" }

/-- Request 0's fetch resolved ok; it is now parsing the body. -/
def wC : SState := setStage wB 0 (ReqStage.pendingJson rOK)

/-- Request 0 rendered: the container now holds the fresh markup. -/
def wD : SState := { setStage wC 0 ReqStage.done with
  container := some (rOK.html.getD "") }

/-- A successful but stale response. -/
def rStale : FetchResp := { ok := true, html := some "stale" }

/-- Two dispatches: request 0 is aborted, request 1 is current. -/
def xC : SState := dispatchResult wB "b"

/-- Request 0's fetch nevertheless resolved (cancellation not honoured). -/
def xD : SState := setStage xC 0 (ReqStage.pendingJson rStale)

/-- Request 0's stale response rendered into the container. -/
def xE : SState := { setStage xD 0 ReqStage.done with
  container := some (rStale.html.getD "") }

/-- A failed response: non-success status. -/
def rBad : FetchResp := { ok := false, html := none }

/-- Dispatching the query "bad" over a last-good address `?q=good`. -/
def yB : SState := dispatchResult (mkInit [("q", "good")]) "bad"

/-- Request 0 settled with a non-ok status: silent return. -/
def yC : SState := setStage yB 0 ReqStage.done

/-- Request 0 failed at the transport level: one diagnostic logged. -/
def zC : SState := { setStage yB 0 ReqStage.done with errLog := yB.errLog + 1 }

lemma dropWhile_dropWhile (p : Char → Bool) (l : List Char) :
    (l.dropWhile p).dropWhile p = l.dropWhile p := by
  induction l with
  | nil => rfl
  | cons a l ih =>
    by_cases h : p a
    · simp [List.dropWhile_cons, h, ih]
    · simp [List.dropWhile_cons, h]

lemma dropWhile_append_notLast (p : Char → Bool) (m : List Char) (c : Char)
    (hpc : p c = false) :
    ∃ w : List Char, (m ++ [c]).dropWhile p = w ++ [c] := by
  induction m with
  | nil => exact ⟨[], by simp [List.dropWhile_cons, hpc]⟩
  | cons a m ih =>
    by_cases hp : p a
    · simpa [List.dropWhile_cons, hp] using ih
    · exact ⟨a :: m, by simp [List.dropWhile_cons, hp]⟩

lemma dropWhile_backTrim (p : Char → Bool) (l : List Char)
    (hl : l.dropWhile p = l) :
    ((l.reverse.dropWhile p).reverse).dropWhile p = (l.reverse.dropWhile p).reverse := by
  cases l with
  | nil => rfl
  | cons a t =>
    have hpa : p a = false := by
      have h1 := hl
      rw [List.dropWhile_cons] at h1
      by_cases hpa : p a
      · rw [if_pos hpa] at h1
        have hsuf := List.dropWhile_suffix (l := t) p
        rw [h1] at hsuf
        have hle := hsuf.length_le
        simp at hle
      · exact Bool.eq_false_iff.mpr hpa
    obtain ⟨w, hw⟩ := dropWhile_append_notLast p t.reverse a hpa
    rw [List.reverse_cons, hw, List.reverse_append]
    simp [List.dropWhile_cons, hpa]

lemma jsTrim_idem (s : String) : jsTrim (jsTrim s) = jsTrim s := by
  unfold jsTrim
  have hdata : (String.mk (((s.data.dropWhile Char.isWhitespace).reverse.dropWhile
      Char.isWhitespace).reverse)).data
      = ((s.data.dropWhile Char.isWhitespace).reverse.dropWhile Char.isWhitespace).reverse := rfl
  rw [hdata]
  have hfront := dropWhile_backTrim Char.isWhitespace (s.data.dropWhile Char.isWhitespace)
    (dropWhile_dropWhile Char.isWhitespace s.data)
  rw [hfront, List.reverse_reverse, dropWhile_dropWhile]

lemma mem_setDelete (l : List String) (v x : String) :
    x ∈ setDelete l v ↔ x ∈ l ∧ x ≠ v := by
  simp [setDelete]

lemma mem_setAdd (l : List String) (v x : String) :
    x ∈ setAdd l v ↔ x ∈ l ∨ x = v := by
  unfold setAdd
  split
  · constructor
    · exact fun h => Or.inl h
    · rintro (h | rfl)
      · exact h
      · assumption
  · simp

lemma not_mem_setDelete_self (l : List String) (v : String) :
    v ∉ setDelete l v := by
  simp [mem_setDelete]

/-- Claim C7: for every filter set and tag id, toggling twice restores
the original membership — the sets of members of `toggleTag (toggleTag l v) v`
and of `l` coincide — and a single toggle adds `v` when absent and removes
it when present, leaving every other member unchanged. -/
theorem claim7_toggle_involution (l : List String) (v : String) :
    tagFinset (toggleTag (toggleTag l v) v) = tagFinset l ∧
    (v ∈ toggleTag l v ↔ v ∉ l) ∧
    (∀ x, x ≠ v → (x ∈ toggleTag l v ↔ x ∈ l)) := by
  by_cases h : v ∈ l
  · have h1 : toggleTag l v = setDelete l v := by simp [toggleTag, h]
    have h2 : toggleTag (toggleTag l v) v = setDelete l v ++ [v] := by
      rw [h1]
      simp [toggleTag, setAdd, not_mem_setDelete_self]
    refine ⟨?_, ?_, ?_⟩
    · rw [h2]
      ext x
      by_cases hx : x = v
      · subst hx
        simp [tagFinset, mem_setDelete, h]
      · simp [tagFinset, mem_setDelete, hx]
    · rw [h1]
      simp [not_mem_setDelete_self, h]
    · intro x hx
      rw [h1, mem_setDelete]
      exact ⟨fun hm => hm.1, fun hm => ⟨hm, hx⟩⟩
  · have h1 : toggleTag l v = l ++ [v] := by simp [toggleTag, setAdd, h]
    have h2 : toggleTag (toggleTag l v) v = l := by
      rw [h1]
      have hv : v ∈ l ++ [v] := by simp
      have hfil : setDelete (l ++ [v]) v = l := by
        unfold setDelete
        rw [List.filter_append]
        have hl : l.filter (fun x => x ≠ v) = l :=
          List.filter_eq_self.mpr (fun x hx => by
            simp only [ne_eq, decide_eq_true_eq]
            exact fun hxv => h (hxv ▸ hx))
        have hv2 : ([v].filter (fun x => x ≠ v)) = ([] : List String) := by simp
        rw [hl, hv2, List.append_nil]
      simp [toggleTag, hv, hfil]
    refine ⟨?_, ?_, ?_⟩
    · rw [h2]
    · rw [h1]
      simp [h]
    · intro x hx
      rw [h1]
      simp [hx]

/-- Witness for claim C7 at a concrete filter set and tag. -/
theorem claim7_witness :
    tagFinset (toggleTag (toggleTag ["vegan"] "dessert") "dessert") = tagFinset ["vegan"] ∧
    ("dessert" ∈ toggleTag ["vegan"] "dessert" ↔ "dessert" ∉ ["vegan"]) ∧
    ("vegan" ∈ toggleTag ["vegan"] "dessert" ↔ "vegan" ∈ ["vegan"]) :=
  ⟨(claim7_toggle_involution ["vegan"] "dessert").1,
   (claim7_toggle_involution ["vegan"] "dessert").2.1,
   (claim7_toggle_involution ["vegan"] "dessert").2.2 "vegan" (by decide)⟩

/-- Claim C9: closing the extra-tags panel via an outside click or the
Escape key only closes the panel — the address's query parameters, the
checkboxes and the navigation list are untouched, whatever the current
checkbox state. -/
theorem claim9_dismiss_only_closes (st : PanelState) (inside : Bool) (key : String) :
    (documentClick inside st).addr = st.addr ∧
    (documentClick inside st).navs = st.navs ∧
    (documentClick inside st).boxes = st.boxes ∧
    (documentClick false st).isOpen = false ∧
    (documentKeydown key st).addr = st.addr ∧
    (documentKeydown key st).navs = st.navs ∧
    (documentKeydown key st).boxes = st.boxes ∧
    (documentKeydown "Escape" st).isOpen = false := by
  unfold documentClick documentKeydown closeExtraDropdown
  refine ⟨?_, ?_, ?_, ?_, ?_, ?_, ?_, ?_⟩ <;> first
    | rfl
    | (cases inside <;> rfl)
    | (by_cases hk : key = "Escape" <;> simp [hk])

lemma mem_foldl_setDelete (l : List String) (s : List String) (v : String) :
    v ∈ l.foldl (fun acc x => setDelete acc x) s ↔ v ∈ s ∧ v ∉ l := by
  induction l generalizing s with
  | nil => simp
  | cons x xs ih =>
    simp only [List.foldl_cons, ih, mem_setDelete, List.mem_cons]
    tauto

lemma mem_foldl_addChecked (boxes : List Checkbox) (s : List String) (v : String) :
    v ∈ boxes.foldl
        (fun acc cb => if cb.checked = true ∧ cb.value ≠ "" then setAdd acc cb.value else acc) s
      ↔ v ∈ s ∨ ∃ cb, cb ∈ boxes ∧ cb.checked = true ∧ cb.value = v ∧ v ≠ "" := by
  induction boxes generalizing s with
  | nil => simp
  | cons cb bs ih =>
    simp only [List.foldl_cons]
    rw [ih]
    by_cases hc : cb.checked = true ∧ cb.value ≠ ""
    · rw [if_pos hc]
      constructor
      · rintro (hs | hex)
        · rcases (mem_setAdd s cb.value v).mp hs with hin | heq
          · exact Or.inl hin
          · exact Or.inr ⟨cb, List.mem_cons_self cb bs, hc.1, heq.symm, heq ▸ hc.2⟩
        · rcases hex with ⟨c, hcm, hck, hcv, hne⟩
          exact Or.inr ⟨c, List.mem_cons_of_mem cb hcm, hck, hcv, hne⟩
      · rintro (hs | hex)
        · exact Or.inl ((mem_setAdd s cb.value v).mpr (Or.inl hs))
        · rcases hex with ⟨c, hcm, hck, hcv, hne⟩
          rcases List.mem_cons.mp hcm with heq2 | hcm'
          · exact Or.inl ((mem_setAdd s cb.value v).mpr (Or.inr (by rw [← hcv, heq2])))
          · exact Or.inr ⟨c, hcm', hck, hcv, hne⟩
    · rw [if_neg hc]
      constructor
      · rintro (hs | hex)
        · exact Or.inl hs
        · rcases hex with ⟨c, hcm, hck, hcv, hne⟩
          exact Or.inr ⟨c, List.mem_cons_of_mem cb hcm, hck, hcv, hne⟩
      · rintro (hs | hex)
        · exact Or.inl hs
        · rcases hex with ⟨c, hcm, hck, hcv, hne⟩
          rcases List.mem_cons.mp hcm with heq2 | hcm'
          · refine absurd ⟨?_, ?_⟩ hc
            · rw [← heq2]
              exact hck
            · rw [← heq2, hcv]
              exact hne
          · exact Or.inr ⟨c, hcm', hck, hcv, hne⟩

lemma mem_applyExtraTags (current extraVals : List String) (boxes : List Checkbox) (v : String) :
    v ∈ applyExtraTags current extraVals boxes ↔
      (v ∈ current ∧ v ∉ extraVals) ∨
      ∃ cb, cb ∈ boxes ∧ cb.checked = true ∧ cb.value = v ∧ v ≠ "" := by
  unfold applyExtraTags
  rw [mem_foldl_addChecked, mem_foldl_setDelete]

/-- Claim C8, amended: apply while the panel is open closes the panel and
commits exactly one full navigation whose filter set is the current
address's tag set with every configured extra-tag value removed and each
checked checkbox's non-empty value added; clear does the same after
unchecking every checkbox, so its committed set is the current tag set
minus the extra-tag values. -/
theorem claim8_amended_commit (extraVals : List String) (st : PanelState)
    (_hopen : st.isOpen = true) :
    (extraApplyClick extraVals st).isOpen = false ∧
    (extraApplyClick extraVals st).navs
      = st.navs ++ [applySelection st.addr
          (applyExtraTags (getCurrentTags st.addr) extraVals st.boxes)] ∧
    (∀ x, x ∈ applyExtraTags (getCurrentTags st.addr) extraVals st.boxes ↔
        ((x ∈ getCurrentTags st.addr ∧ x ∉ extraVals) ∨
         ∃ cb, cb ∈ st.boxes ∧ cb.checked = true ∧ cb.value = x ∧ x ≠ "")) ∧
    (extraClearClick extraVals st).isOpen = false ∧
    (extraClearClick extraVals st).navs
      = st.navs ++ [applySelection st.addr
          (applyExtraTags (getCurrentTags st.addr) extraVals
            (st.boxes.map (fun cb => { cb with checked := false })))] ∧
    (∀ x, x ∈ applyExtraTags (getCurrentTags st.addr) extraVals
            (st.boxes.map (fun cb => { cb with checked := false })) ↔
        (x ∈ getCurrentTags st.addr ∧ x ∉ extraVals)) := by
  refine ⟨rfl, rfl, fun x => mem_applyExtraTags _ _ _ _, rfl, rfl, fun x => ?_⟩
  rw [mem_applyExtraTags]
  constructor
  · rintro (h | hex)
    · exact h
    · rcases hex with ⟨c, hcm, hck, _, _⟩
      rcases List.mem_map.mp hcm with ⟨c0, _, rfl⟩
      exact absurd hck (by simp)
  · exact fun h => Or.inl h

/-- Claim C8, counterexample to the claim as stated: a checked checkbox
whose `value` is the empty string is not added to the committed filter
set (the source guards with `checkbox.checked && value`), so the commit
is not always "each currently checked checkbox's value added". -/
theorem claim8_counterexample :
    applyExtraTags [] [] [{ value := "", checked := true }] = [] ∧
    "" ∉ applyExtraTags [] [] [{ value := "", checked := true }] := by
  refine ⟨rfl, ?_⟩
  rw [show applyExtraTags [] [] [{ value := "", checked := true }] = [] from rfl]
  simp

/-- Witness for the amended claim C8 at a concrete page state. -/
theorem claim8_witness :
    (extraApplyClick ["glutenfree", "spicy"]
        { isOpen := true, ariaExpanded := true,
          boxes := [{ value := "glutenfree", checked := true }],
          addr := [("tags", "vegan"), ("q", "pasta")], inputVal := "", navs := [] }).isOpen
      = false ∧
    (extraApplyClick ["glutenfree", "spicy"]
        { isOpen := true, ariaExpanded := true,
          boxes := [{ value := "glutenfree", checked := true }],
          addr := [("tags", "vegan"), ("q", "pasta")], inputVal := "", navs := [] }).navs
      = [] ++ [applySelection [("tags", "vegan"), ("q", "pasta")]
          (applyExtraTags (getCurrentTags [("tags", "vegan"), ("q", "pasta")])
            ["glutenfree", "spicy"] [{ value := "glutenfree", checked := true }])] :=
  ⟨(claim8_amended_commit ["glutenfree", "spicy"] _ rfl).1,
   (claim8_amended_commit ["glutenfree", "spicy"] _ rfl).2.1⟩

/-- Claim C10: every full-navigation path (quick-tag toggle, reset-all,
extra-tags apply/clear) rebuilds its target from the current address's
query parameters: every parameter other than `tags` — `q` included — is
preserved verbatim, and the live text-input value is never consulted. -/
theorem claim10_nav_rebuild_preserves (st : PanelState) (value v : String)
    (extraVals : List String) (tags : List String) :
    (applySelection st.addr tags).filter (fun p => p.1 ≠ "tags")
        = st.addr.filter (fun p => p.1 ≠ "tags") ∧
    (filterButtonClick value st).navs
        = st.navs ++ [applySelection st.addr (toggleTag (getCurrentTags st.addr) value)] ∧
    (resetClick st).navs = st.navs ++ [st.addr.filter (fun p => p.1 ≠ "tags")] ∧
    ((st.addr.filter (fun p => p.1 ≠ "tags")).filter (fun p => p.1 ≠ "tags")
        = st.addr.filter (fun p => p.1 ≠ "tags")) ∧
    (filterButtonClick value { st with inputVal := v }).navs
        = (filterButtonClick value st).navs ∧
    (resetClick { st with inputVal := v }).navs = (resetClick st).navs ∧
    (extraApplyClick extraVals { st with inputVal := v }).navs
        = (extraApplyClick extraVals st).navs ∧
    (extraClearClick extraVals { st with inputVal := v }).navs
        = (extraClearClick extraVals st).navs := by
  refine ⟨?_, rfl, rfl, ?_, rfl, rfl, rfl, rfl⟩
  · unfold applySelection
    rw [List.filter_append]
    have hmap : (tags.map (fun t => (("tags", t) : String × String))).filter
        (fun p => p.1 ≠ "tags") = [] := by
      rw [List.filter_eq_nil_iff]
      intro p hp
      rcases List.mem_map.mp hp with ⟨t, _, rfl⟩
      simp
    rw [hmap, List.append_nil, List.filter_filter]
    simp
  · rw [List.filter_filter]
    simp

/-- Claim C4, counterexample to the claim as stated: text is typed at
time 0 and the form submitted at time 10, within the debounce window.
The submit dispatches immediately, but the pending debounced dispatch is
not cancelled — the debounce closure's timer is private to it and the
submit listener never touches it — so a second, redundant dispatch fires
at time 250. -/
theorem claim4_counterexample :
    (runScript [] "" [⟨0, UAct.input "pasta"⟩, ⟨10, UAct.submit⟩]).dispatches
        = [(10, "pasta"), (250, "pasta")] ∧
    ((runScript [] "" [⟨0, UAct.input "pasta"⟩, ⟨10, UAct.submit⟩]).dispatches).length ≠ 1 := by
  refine ⟨?_, ?_⟩ <;> decide

/-- Claim C4, amended: a form submit always dispatches immediately — at
the submit's own time, with the trimmed text — regardless of the debounce
timer's state, but it does not cancel a pending debounced dispatch: the
timer survives the submit unchanged (relative to the state after any
already-due timer has fired). -/
theorem claim4_amended_submit_immediate (s : SimState) (t : Nat) :
    (handle s ⟨t, UAct.submit⟩).dispatches
        = (flushBefore t s).dispatches ++ [(t, jsTrim (flushBefore t s).inputVal)] ∧
    (handle s ⟨t, UAct.submit⟩).pending = (flushBefore t s).pending ∧
    (handle s ⟨t, UAct.submit⟩).navs = s.navs := by
  refine ⟨?_, rfl, ?_⟩
  · show (flushBefore t s).dispatches ++ [(t, jsTrim (jsTrim (flushBefore t s).inputVal))]
        = (flushBefore t s).dispatches ++ [(t, jsTrim (flushBefore t s).inputVal)]
    rw [jsTrim_idem]
  show (flushBefore t s).navs = s.navs
  unfold flushBefore
  cases hp : s.pending with
  | none => rfl
  | some d =>
    by_cases hd : d ≤ t
    · simp [hd, doDispatch]
    · simp [hd]

/-- Claim C5, counterexample to the claim as stated: the clear-search
click calls `debouncedSearch`, not `requestSearch`, so the re-dispatch is
not immediate — with a click at time 0 the only dispatch fires at time
250, after the full debounce delay. -/
theorem claim5_counterexample :
    (runScript [("q", "pasta")] "pasta" [⟨0, UAct.clearClick⟩]).dispatches = [(250, "")] ∧
    (runScript [("q", "pasta")] "pasta" [⟨0, UAct.clearClick⟩]).addr = [] := by
  refine ⟨?_, ?_⟩ <;> decide

/-- Claim C5, amended: a clear-search click empties the text field,
rewrites the address by replace (no navigation) to the tags-only query
with no `q` parameter, and schedules a new search through the debounce:
no dispatch happens at the click itself, and if no further event occurs
the dispatch fires one debounce delay later, carrying an empty query. -/
theorem claim5_amended_clear_debounced (s : SimState) (t : Nat) :
    (handle s ⟨t, UAct.clearClick⟩).inputVal = "" ∧
    (handle s ⟨t, UAct.clearClick⟩).addr
        = searchParams (getCurrentTags (flushBefore t s).addr) "" ∧
    (handle s ⟨t, UAct.clearClick⟩).navs = s.navs ∧
    (handle s ⟨t, UAct.clearClick⟩).dispatches = (flushBefore t s).dispatches ∧
    (handle s ⟨t, UAct.clearClick⟩).pending = some (t + delay) ∧
    (finalFlush (handle s ⟨t, UAct.clearClick⟩)).dispatches
        = (flushBefore t s).dispatches ++ [(t + delay, "")] := by
  have hnav : (flushBefore t s).navs = s.navs := by
    unfold flushBefore
    cases hp : s.pending with
    | none => rfl
    | some d =>
      by_cases hd : d ≤ t
      · simp [hd, doDispatch]
      · simp [hd]
  refine ⟨rfl, rfl, hnav, rfl, rfl, ?_⟩
  show ((flushBefore t s).dispatches ++ [(t + delay, jsTrim "")])
      = (flushBefore t s).dispatches ++ [(t + delay, "")]
  rfl

lemma burst_fold (es : List TEvent) : ∀ (s : SimState) (t0 : Nat),
    s.pending = some (t0 + delay) →
    burstTimes t0 es = true →
    (es.all fun e => isInput e.act) = true →
    es.foldl handle s
      = { s with inputVal := lastVal s.inputVal es,
                 pending := some (lastTime t0 es + delay) } := by
  induction es with
  | nil =>
    intro s t0 hp _ _
    simp only [List.foldl_nil, lastVal, lastTime]
    rw [← hp]
  | cons e es ih =>
    intro s t0 hp hb ha
    simp only [burstTimes, Bool.and_eq_true, decide_eq_true_eq] at hb
    obtain ⟨⟨hle, hlt⟩, hb'⟩ := hb
    simp only [List.all_cons, Bool.and_eq_true] at ha
    obtain ⟨hae, ha'⟩ := ha
    cases hact : e.act with
    | input v =>
      have hflush : flushBefore e.t s = s := by
        unfold flushBefore
        rw [hp]
        have hnd : ¬ (t0 + delay ≤ e.t) := by omega
        simp [hnd]
      have hhandle : handle s e
          = { s with inputVal := v, pending := some (e.t + delay) } := by
        unfold handle
        rw [hact, hflush]
      rw [List.foldl_cons, hhandle,
        ih { s with inputVal := v, pending := some (e.t + delay) } e.t rfl hb' ha']
      simp only [lastVal, lastTime, List.foldl_cons, hact]
    | submit =>
      rw [hact] at hae
      simp [isInput] at hae
    | clearClick =>
      rw [hact] at hae
      simp [isInput] at hae

/-- Claim C6: for every burst of debounced schedule calls — a first input
event followed by further input events, each arriving before the previous
one's debounce deadline — the scheduled dispatch runs exactly once, at the
final event's time plus the debounce delay, carrying the text value
present at that final event; every earlier pending invocation of the
burst is overwritten and never fires. -/
theorem claim6_debounce_burst (t1 : Nat) (v1 : String) (es : List TEvent)
    (addr0 : List (String × String)) (input0 : String)
    (hb : burstTimes t1 es = true)
    (ha : (es.all fun e => isInput e.act) = true) :
    (runScript addr0 input0 (⟨t1, UAct.input v1⟩ :: es)).dispatches
      = [(lastTime t1 es + delay, jsTrim (lastVal v1 es))] := by
  unfold runScript
  rw [List.foldl_cons]
  have h1 : handle (initSim addr0 input0) ⟨t1, UAct.input v1⟩
      = { initSim addr0 input0 with inputVal := v1, pending := some (t1 + delay) } := rfl
  rw [h1, burst_fold es _ t1 rfl hb ha]
  unfold finalFlush doDispatch
  simp [initSim]

/-- Witness for claim C6: the user types "soup" at time 0 and "soups" at
time 100, inside the debounce window; exactly one dispatch fires, at time
350, for the final value. -/
theorem claim6_witness :
    burstTimes 0 [⟨100, UAct.input "soups"⟩] = true ∧
    (runScript [] "" [⟨0, UAct.input "soup"⟩, ⟨100, UAct.input "soups"⟩]).dispatches
      = [(350, "soups")] := by
  refine ⟨by decide, ?_⟩
  have h := claim6_debounce_burst 0 "soup" [⟨100, UAct.input "soups"⟩] [] ""
    (by decide) (by decide)
  exact h.trans (by decide)

lemma inv_init (addr : List (String × String)) : Inv (mkInit addr) := by
  constructor
  · intro i
    simp [mkInit]
  · simp [mkInit]

lemma inv_step {ae : Bool} {st st' : SState} {e : SEvent}
    (h : SStep ae st e st') (hinv : Inv st) : Inv st' := by
  obtain ⟨hab, hcur⟩ := hinv
  cases h with
  | dispatch input st' heq =>
    subst heq
    unfold dispatchResult abortCurrent
    cases hc : st.current with
    | none =>
      have hlen : st.stages.length = 0 := by
        rw [hc] at hcur
        by_contra hne
        rw [if_neg hne] at hcur
        exact Option.noConfusion hcur
      constructor
      · intro i
        simp only [List.length_append, List.length_cons, List.length_nil]
        rw [hab i]
        omega
      · simp
    | some c =>
      rw [hc] at hcur
      have hne : st.stages.length ≠ 0 := by
        by_contra hz
        rw [if_pos hz] at hcur
        exact Option.noConfusion hcur
      rw [if_neg hne] at hcur
      have hceq : c = st.stages.length - 1 := Option.some.inj hcur
      constructor
      · intro i
        simp only [List.mem_cons, List.length_append, List.length_cons, List.length_nil]
        rw [hab i, hceq]
        omega
      · simp only [List.length_append, List.length_cons, List.length_nil]
        rw [if_neg (by omega)]
        congr 1
  | fetchAbort i st' hst hab2 heq =>
    subst heq
    exact ⟨fun j => by simpa [setStage] using hab j, by simpa [setStage] using hcur⟩
  | fetchFail i st' hst hok heq =>
    subst heq
    exact ⟨fun j => by simpa [setStage] using hab j, by simpa [setStage] using hcur⟩
  | fetchResolve i resp st' hst hok heq =>
    have : st'.aborted = st.aborted ∧ st'.stages.length = st.stages.length ∧
        st'.current = st.current := by
      split at heq <;> (subst heq; exact ⟨rfl, by simp [setStage], rfl⟩)
    obtain ⟨h1, h2, h3⟩ := this
    exact ⟨fun j => by rw [h1, h2]; exact hab j, by rw [h3, h2]; exact hcur⟩
  | jsonAbort i resp st' hst hab2 heq =>
    subst heq
    exact ⟨fun j => by simpa [setStage] using hab j, by simpa [setStage] using hcur⟩
  | jsonFail i resp st' hst hok heq =>
    subst heq
    exact ⟨fun j => by simpa [setStage] using hab j, by simpa [setStage] using hcur⟩
  | jsonResolve i resp st' hst hok heq =>
    subst heq
    exact ⟨fun j => by simpa [setStage] using hab j, by simpa [setStage] using hcur⟩

lemma reaches_inv {ae : Bool} {s0 st : SState} {tr : List SEvent}
    (h : Reaches ae s0 tr st) (h0 : Inv s0) : Inv st := by
  induction h with
  | refl st => exact h0
  | step h1 _ ih => exact ih (inv_step h1 h0)

lemma abortCurrent_container (st : SState) :
    (abortCurrent st).container = st.container := by
  unfold abortCurrent
  cases st.current <;> rfl

lemma stageOf_lt {st : SState} {i : Nat} {x : ReqStage}
    (h : stageOf st i = some x) : i < st.stages.length := by
  unfold stageOf at h
  by_contra hge
  push_neg at hge
  rw [List.getElem?_eq_none hge] at h
  exact Option.noConfusion h

/-- Claim C1: with an abort-honouring transport (the fetch standard), the
results container is only ever modified by the render step of the most
recently dispatched request.  Whenever a newer dispatch occurs before an
older request settles, the older request is aborted and its response can
never reach the render step, whatever order responses arrive in. -/
theorem claim1_only_latest_renders (addr : List (String × String)) (tr : List SEvent)
    (st st' : SState) (e : SEvent)
    (hr : Reaches true (mkInit addr) tr st)
    (hs : SStep true st e st')
    (hc : st'.container ≠ st.container) :
    ∃ i, e = SEvent.jsonResolve i ∧ st.current = some i ∧ i + 1 = st.stages.length := by
  have hinv := reaches_inv hr (inv_init addr)
  cases hs with
  | dispatch input st' heq =>
    exact absurd (heq ▸ abortCurrent_container st) hc
  | fetchAbort i st' hst hab2 heq =>
    exact absurd (heq ▸ rfl) hc
  | fetchFail i st' hst hok heq =>
    exact absurd (heq ▸ rfl) hc
  | fetchResolve i resp st' hst hok heq =>
    exfalso
    apply hc
    split at heq <;> (subst heq; rfl)
  | jsonAbort i resp st' hst hab2 heq =>
    exact absurd (heq ▸ rfl) hc
  | jsonFail i resp st' hst hok heq =>
    exact absurd (heq ▸ rfl) hc
  | jsonResolve i resp st' hst hok heq =>
    have hnab : i ∉ st.aborted := hok rfl
    have hlt : i < st.stages.length := stageOf_lt hst
    have hge : ¬ (i + 1 < st.stages.length) := fun hx => hnab ((hinv.1 i).mpr hx)
    refine ⟨i, rfl, ?_, by omega⟩
    rw [hinv.2, if_neg (by omega)]
    congr 1
    omega

/-- Witness for claim C1: a concrete session whose render step changes
the container, performed by the latest (here: only) dispatched request. -/
theorem claim1_witness :
    wD.container ≠ wC.container ∧
    ∃ i, SEvent.jsonResolve 0 = SEvent.jsonResolve i ∧ wC.current = some i ∧
      i + 1 = wC.stages.length :=
  ⟨by decide,
   claim1_only_latest_renders [] [SEvent.dispatch "a", SEvent.fetchResolve 0 rOK] wC wD
     (SEvent.jsonResolve 0)
     (Reaches.step (SStep.dispatch (mkInit []) "a" wB rfl)
       (Reaches.step
         (SStep.fetchResolve wB 0 rOK wC (by decide) (fun _ => by decide) (by decide))
         (Reaches.refl wC)))
     (SStep.jsonResolve wC 0 rOK wD (by decide) (fun _ => by decide) rfl)
     (by decide)⟩

/-- Claim C2, counterexample to the claim as stated: the code carries no
sequence numbers — its only guard is `AbortController`.  In a run where
network-level cancellation does not take effect, the superseded request 0
is rendered even though request 1 is the latest dispatch, so no
render-time number check exists independently of cancellation. -/
theorem claim2_counterexample :
    Reaches false (mkInit [])
      [SEvent.dispatch "a", SEvent.dispatch "b", SEvent.fetchResolve 0 rStale,
       SEvent.jsonResolve 0] xE ∧
    xE.container = some "stale" ∧ xE.current = some 1 ∧ xE.stages.length = 2 := by
  refine ⟨?_, by decide, by decide, by decide⟩
  exact Reaches.step (SStep.dispatch (mkInit []) "a" wB rfl)
    (Reaches.step (SStep.dispatch wB "b" xC rfl)
      (Reaches.step
        (SStep.fetchResolve xC 0 rStale xD (by decide) (fun h => Bool.noConfusion h)
          (by decide))
        (Reaches.step
          (SStep.jsonResolve xD 0 rStale xE (by decide) (fun h => Bool.noConfusion h) rfl)
          (Reaches.refl xE))))

/-- Claim C2, amended: dispatched requests carry no sequence numbers; the
only guard against stale renders is the abort signal itself.  When the
transport honours cancellation, a render step can only be taken by the
request owning the live controller — the most recently dispatched one. -/
theorem claim2_amended_abort_guard (addr : List (String × String)) (tr : List SEvent)
    (st st' : SState) (i : Nat)
    (hr : Reaches true (mkInit addr) tr st)
    (hs : SStep true st (SEvent.jsonResolve i) st') :
    st.current = some i ∧ i + 1 = st.stages.length := by
  have hinv := reaches_inv hr (inv_init addr)
  have hfacts : (∃ r, stageOf st i = some (ReqStage.pendingJson r)) ∧ i ∉ st.aborted :=
    match hs with
    | SStep.jsonResolve _ _ r _ hstage hok _ => ⟨⟨r, hstage⟩, hok rfl⟩
  obtain ⟨⟨r, hst⟩, hnab⟩ := hfacts
  have hlt : i < st.stages.length := stageOf_lt hst
  have hge : ¬ (i + 1 < st.stages.length) := fun hx => hnab ((hinv.1 i).mpr hx)
  refine ⟨?_, by omega⟩
  rw [hinv.2, if_neg (by omega)]
  congr 1
  omega

/-- Witness for the amended claim C2 at the concrete session of C1. -/
theorem claim2_witness : wC.current = some 0 ∧ 0 + 1 = wC.stages.length :=
  claim2_amended_abort_guard [] [SEvent.dispatch "a", SEvent.fetchResolve 0 rOK] wC wD 0
    (Reaches.step (SStep.dispatch (mkInit []) "a" wB rfl)
      (Reaches.step
        (SStep.fetchResolve wB 0 rOK wC (by decide) (fun _ => by decide) (by decide))
        (Reaches.refl wC)))
    (SStep.jsonResolve wC 0 rOK wD (by decide) (fun _ => by decide) rfl)

/-- Claim C3, counterexample to the claim as stated: a non-success status
produces no diagnostic at all (`if (!response.ok) return;` logs nothing),
and the address was already rewritten to the failed search's parameters
at dispatch time (`updateHistory` runs before the fetch), so it is not
left at its last good value.  Only the results container is unchanged. -/
theorem claim3_counterexample :
    Reaches true (mkInit [("q", "good")])
      [SEvent.dispatch "bad", SEvent.fetchResolve 0 rBad] yC ∧
    yC.errLog = 0 ∧ yC.address = [("q", "bad")] ∧ yC.address ≠ [("q", "good")] ∧
    yC.container = (mkInit [("q", "good")]).container := by
  refine ⟨?_, by decide, by decide, by decide, by decide⟩
  exact Reaches.step (SStep.dispatch (mkInit [("q", "good")]) "bad" yB rfl)
    (Reaches.step
      (SStep.fetchResolve yB 0 rBad yC (by decide) (fun _ => by decide) (by decide))
      (Reaches.refl yC))

/-- Claim C3, amended: a transport or body-parse failure other than a
cancellation is reported to the diagnostic channel (`console.error`); a
non-success HTTP status is dropped silently with no report.  In either
case the failing step leaves the results container untouched — but the
navigable address already reflects the failed search's parameters,
rewritten at dispatch time, not its last good value. -/
theorem claim3_amended_failure_handling (ae : Bool) (st st' : SState) (i : Nat)
    (resp : FetchResp) :
    (SStep ae st (SEvent.fetchFail i) st' →
      st'.errLog = st.errLog + 1 ∧ st'.container = st.container ∧
      st'.address = st.address) ∧
    (SStep ae st (SEvent.jsonFail i) st' →
      st'.errLog = st.errLog + 1 ∧ st'.container = st.container ∧
      st'.address = st.address) ∧
    (SStep ae st (SEvent.fetchResolve i resp) st' → resp.ok = false →
      st'.errLog = st.errLog ∧ st'.container = st.container ∧
      st'.address = st.address) := by
  refine ⟨?_, ?_, ?_⟩
  · intro h
    have heq2 : st' = { setStage st i ReqStage.done with errLog := st.errLog + 1 } :=
      match h with
      | SStep.fetchFail _ _ _ _ _ heq => heq
    subst heq2
    exact ⟨rfl, rfl, rfl⟩
  · intro h
    have heq2 : st' = { setStage st i ReqStage.done with errLog := st.errLog + 1 } :=
      match h with
      | SStep.jsonFail _ _ _ _ _ _ heq => heq
    subst heq2
    exact ⟨rfl, rfl, rfl⟩
  · intro h hro
    have heq2 : st' = if resp.ok then setStage st i (ReqStage.pendingJson resp)
        else setStage st i ReqStage.done :=
      match h with
      | SStep.fetchResolve _ _ _ _ _ _ heq => heq
    rw [hro] at heq2
    simp only [Bool.false_eq_true, if_false] at heq2
    subst heq2
    exact ⟨rfl, rfl, rfl⟩

/-- Witness for the amended claim C3 at a concrete failing request. -/
theorem claim3_witness :
    zC.errLog = yB.errLog + 1 ∧ zC.container = yB.container ∧ zC.address = yB.address :=
  (claim3_amended_failure_handling true yB zC 0 rBad).1
    (SStep.fetchFail yB 0 zC (by decide) (fun _ => by decide) rfl)

end Recipes
